import Mathlib

/-!
Shallow embedding of the authentication and credential-protection core of
the api-token-monitor repository (src/src/utils/crypto.ts,
src/src/utils/auth.ts, the storage module, and src/src/hooks/useAuth.tsx),
together with theorems checking the documented properties of these
functions.

Modelling conventions:
* Byte sequences (Uint8Array, TextEncoder output) are lists of naturals;
  real bytes are < 256 and the theorems carry that bound where needed.
* Randomness (crypto.getRandomValues, crypto.randomUUID) is passed in as
  explicit parameters (salt, iv, uuid), one per call site.
* The Web Crypto primitives PBKDF2-SHA256 and AES-256-GCM are platform
  library calls, not code of this repository: they are modelled as ideal
  (collision-free) primitives, which is the standard random-oracle reading
  of the cryptographic contracts the code relies on.  Every byte-level
  wrapper around them (hex encoding, encoded-hash format, blob layout,
  comparison loops, parsing) is translated directly from the source.
* localStorage and the in-memory maps are modelled as explicit state
  threaded through the functions; JSON.stringify/JSON.parse of the plain
  records the code stores round-trip and are modelled as the identity.

The file lists all definitions first and then the theorems about them.
-/

namespace ApiTokenMonitor

/-- Byte sequences are lists of naturals. -/
abbrev Bytes := List Nat

/-! ### Text encoding (model of TextEncoder / TextDecoder)

The code calls TextEncoder.encode to turn strings into bytes.  We model it
as a fixed-width (3 bytes per character) injective encoding: each character
code point c (< 0x110000 < 2^24) becomes its three big-endian base-256
digits.  The claims depend only on the encoding being an injective map into
bytes with a matching decoder, which real UTF-8 is. -/

/-- Three-byte big-endian encoding of one character. -/
def charBytes (c : Char) : Bytes :=
  [c.toNat / 65536, c.toNat / 256 % 256, c.toNat % 256]

/-- Encode a character list to bytes, three bytes per character. -/
def bytesOfChars : List Char → Bytes
  | [] => []
  | c :: cs => charBytes c ++ bytesOfChars cs

/-- Model of TextEncoder.encode. -/
def textEncode (s : String) : Bytes :=
  bytesOfChars s.data

/-- Decode bytes back to characters, three bytes per character. -/
def charsOfBytes : Bytes → List Char
  | b0 :: b1 :: b2 :: rest => Char.ofNat (b0 * 65536 + b1 * 256 + b2) :: charsOfBytes rest
  | _ => []

/-- Model of TextDecoder.decode. -/
def textDecode (b : Bytes) : String :=
  ⟨charsOfBytes b⟩

/-! ### Hexadecimal encoding and decoding

hashToken and verifyToken serialize bytes as lowercase hex two characters
per byte (b.toString(16).padStart(2, "0")) and parse hex back with
parseInt(byte, 16) over .match(/.{2}/g) chunks. -/

/-- One lowercase hex digit, as produced by Number.toString(16). -/
def hexDigit (n : Nat) : Char :=
  Char.ofNat (if n < 10 then 48 + n else 87 + n)

/-- Two-character hex form of a byte b < 256: b.toString(16).padStart(2, "0"). -/
def byteToHex (b : Nat) : List Char :=
  [hexDigit (b / 16), hexDigit (b % 16)]

/-- Hex characters of a byte list (map-then-join of byteToHex). -/
def hexOfBytes : Bytes → List Char
  | [] => []
  | b :: bs => byteToHex b ++ hexOfBytes bs

/-- Hex string of a byte list. -/
def hexEncode (b : Bytes) : String :=
  ⟨hexOfBytes b⟩

/-- Value of one hex character, accepting both cases as parseInt(-, 16) does. -/
def hexVal? (c : Char) : Option Nat :=
  if 48 ≤ c.toNat ∧ c.toNat ≤ 57 then some (c.toNat - 48)
  else if 97 ≤ c.toNat ∧ c.toNat ≤ 102 then some (c.toNat - 87)
  else if 65 ≤ c.toNat ∧ c.toNat ≤ 70 then some (c.toNat - 55)
  else none

/-- parseInt(pair, 16) on a two-character chunk: parses a prefix of valid
hex digits; a leading invalid digit yields NaN, which the Uint8Array
constructor then coerces to the byte 0. -/
def parseHexPair (p : List Char) : Nat :=
  match p with
  | [a, b] =>
      match hexVal? a with
      | none => 0
      | some va =>
          match hexVal? b with
          | none => va
          | some vb => va * 16 + vb
  | [a] =>
      match hexVal? a with
      | none => 0
      | some va => va
  | _ => 0

/-- Non-overlapping two-character chunks, as returned by .match(/.{2}/g);
a trailing odd character is dropped, and no chunk at all corresponds to the
regexp returning null. -/
def chunkPairs : List Char → List (List Char)
  | a :: b :: rest => [a, b] :: chunkPairs rest
  | _ => []

/-- Decoding a hex character list back to bytes, as verifyToken does. -/
def bytesOfHex (s : List Char) : Bytes :=
  (chunkPairs s).map parseHexPair

/-! ### Decimal parsing (model of parseInt(s, 10)) -/

/-- Accumulate leading decimal digits, stopping at the first non-digit. -/
def parseDecimalAux : List Char → Nat → Nat
  | [], acc => acc
  | c :: cs, acc =>
      if c.isDigit then parseDecimalAux cs (acc * 10 + (c.toNat - 48)) else acc

/-- parseInt(s, 10): none models NaN (no leading digit). -/
def parseDecimal : List Char → Option Nat
  | [] => none
  | c :: cs => if c.isDigit then some (parseDecimalAux (c :: cs) 0) else none

/-! ### Splitting on a separator (model of String.prototype.split) -/

/-- JS-style split on a single character: "".split gives one empty group,
a leading separator gives a leading empty group. -/
def splitOn (sep : Char) : List Char → List (List Char)
  | [] => [[]]
  | c :: cs =>
      if c = sep then [] :: splitOn sep cs
      else
        match splitOn sep cs with
        | [] => [[c]]
        | g :: gs => (c :: g) :: gs

/-! ### Fixed-width length encoding used by the ideal primitives -/

/-- Four-byte big-endian encoding of a length (mod 2^32). -/
def lenBytes4 (n : Nat) : Bytes :=
  [n / 16777216 % 256, n / 65536 % 256, n / 256 % 256, n % 256]

end ApiTokenMonitor

namespace ApiTokenMonitor

namespace Crypto

/-! ## src/src/utils/crypto.ts -/

/-- Ideal model of the PBKDF2-SHA256 deriveBits call (100k iterations in
the source).  The real KDF is a platform primitive; the code relies on it
being a deterministic digest that is collision-free across distinct
(password, salt, iteration) inputs, which is the random-oracle
idealization formalized here by an injective byte encoding. -/
def deriveBits (password salt : Bytes) (iterations : Nat) : Bytes :=
  lenBytes4 iterations ++ lenBytes4 password.length ++ password ++ salt

/-- hashToken from crypto.ts: fresh 16-byte random salt (passed explicitly
here), PBKDF2-SHA256 with 100000 iterations, serialized as
$pbkdf2$sha256$100000$saltHex$hashHex. -/
def hashToken (token : String) (salt : Bytes) : String :=
  "$pbkdf2$sha256$100000$" ++ hexEncode salt ++ "$"
    ++ hexEncode (deriveBits (textEncode token) salt 100000)

/-- XOR-accumulate loop shared by both comparison functions:
for i: result |= a[i] ^ b[i]. -/
def xorAccum (xs ys : List Nat) : Nat :=
  (xs.zip ys).foldl (fun r p => r ||| (p.1 ^^^ p.2)) 0

/-- constantTimeEqual from crypto.ts: compares charCodeAt values; on a
length mismatch it runs the loop against the dummy string "0".repeat and
then returns (result === 0) && false, which is always false. -/
def constantTimeEqual (a b : String) : Bool :=
  if (a.data.map Char.toNat).length ≠ (b.data.map Char.toNat).length then
    (decide (xorAccum (List.replicate (b.data.map Char.toNat).length 48)
      (b.data.map Char.toNat) = 0)) && false
  else
    decide (xorAccum (a.data.map Char.toNat) (b.data.map Char.toNat) = 0)

/-- Truthiness of the VITE_ADMIN_TOKEN_HASH environment value: undefined
and the empty string are falsy. -/
def envTruthy : Option String → Bool
  | none => false
  | some s => !(s.isEmpty)

/-- verifyToken from crypto.ts.  The environment value
import.meta.env.VITE_ADMIN_TOKEN_HASH is passed explicitly as cfg.  The
try/catch wrapper returns false on the throwing paths (the non-null
assertion on the /.{2}/g match); the dummy hashToken calls on the parse
failure paths only burn time and do not change the result. -/
def verifyToken (cfg : Option String) (token hash : String) : Bool :=
  if envTruthy cfg && constantTimeEqual token (cfg.getD "") then
    true
  else
    let parts := splitOn '$' hash.data
    if parts.length = 6 then
      if parts.getD 1 [] = "pbkdf2".data then
        match parseDecimal (parts.getD 3 []) with
        | none => false
        | some iterations =>
            let chunks := chunkPairs (parts.getD 4 [])
            if chunks.isEmpty then
              false
            else
              let salt := chunks.map parseHexPair
              let computedHash :=
                hexOfBytes (deriveBits (textEncode token) salt iterations)
              constantTimeEqual ⟨computedHash⟩ ⟨parts.getD 5 []⟩
    else
      false
  else
    false

/-! ### The cipher (encryptApiKey / decryptApiKey)

AES-256-GCM under a PBKDF2-derived key is modelled as an ideal
authenticated cipher: the ciphertext+tag blob determines the key material,
nonce and plaintext uniquely, and decryption succeeds exactly on blobs
that are well-formed encryptions under precisely that key and nonce.
The derived AES key is determined by (password bytes, salt), which is how
the pair enters the model. -/

/-- Ideal AES-256-GCM encryption: ciphertext together with its integrity
tag, as one byte sequence (the source stores them concatenated in
EncryptedData.data). -/
def aesGcmEncrypt (keyPw keySalt iv plaintext : Bytes) : Bytes :=
  lenBytes4 plaintext.length ++ plaintext ++ lenBytes4 keyPw.length ++ keyPw
    ++ lenBytes4 keySalt.length ++ keySalt ++ lenBytes4 iv.length ++ iv ++ plaintext

/-- Ideal AES-256-GCM decryption: recovers the unique plaintext whose
encryption under exactly this key and nonce is the given blob, and fails
(the OperationError of crypto.subtle.decrypt) otherwise. -/
def aesGcmDecrypt (keyPw keySalt iv ct : Bytes) : Option Bytes :=
  let overhead := 16 + keyPw.length + keySalt.length + iv.length
  if ct.length < overhead then none
  else if (ct.length - overhead) % 2 ≠ 0 then none
  else
    let n := (ct.length - overhead) / 2
    let d := (ct.drop 4).take n
    if ct = aesGcmEncrypt keyPw keySalt iv d then some d else none

/-- EncryptedData from src/src/types: salt, iv and ciphertext byte arrays.
JSON.stringify/JSON.parse of this plain record round-trip and are modelled
as the identity. -/
structure EncryptedData where
  salt : Bytes
  iv : Bytes
  data : Bytes

deriving DecidableEq, Repr

/-- Decryption failures surface as the IntegrityError of the spec (the
OperationError thrown by crypto.subtle.decrypt on tag mismatch). -/
inductive CryptoError where
  | IntegrityError

deriving DecidableEq, Repr

/-- encryptApiKey from crypto.ts, with the fresh random 16-byte salt and
12-byte iv passed explicitly. -/
def encryptApiKey (key password : String) (salt iv : Bytes) : EncryptedData :=
  { salt := salt, iv := iv
    data := aesGcmEncrypt (textEncode password) salt iv (textEncode key) }

/-- decryptApiKey from crypto.ts: re-derives the key from the password and
the stored salt, then authenticated-decrypts with the stored iv. -/
def decryptApiKey (blob : EncryptedData) (password : String) :
    Except CryptoError String :=
  match aesGcmDecrypt (textEncode password) blob.salt blob.iv blob.data with
  | some d => .ok (textDecode d)
  | none => .error .IntegrityError

end Crypto

end ApiTokenMonitor

namespace ApiTokenMonitor

namespace Auth

/-! ## src/src/utils/auth.ts -/

/-- The private constantTimeEqual of auth.ts: encodes both strings with
TextEncoder first and compares bytes; on a length mismatch the loop runs
against a zero-filled dummy buffer and the result is forced to false. -/
def constantTimeEqual (a b : String) : Bool :=
  if (textEncode a).length ≠ (textEncode b).length then
    (decide (Crypto.xorAccum (List.replicate (textEncode b).length 0)
      (textEncode b) = 0)) && false
  else
    decide (Crypto.xorAccum (textEncode a) (textEncode b) = 0)

/-- RateLimitState from src/src/types (src/unnamed/part_000 lines 42-46):
attempts, lastAttempt and nullable lockedUntil, timestamps in
milliseconds. -/
structure RateLimitState where
  attempts : Nat
  lastAttempt : Nat
  lockedUntil : Option Nat

deriving DecidableEq, Repr

/-- Rate limiting configuration constants from auth.ts. -/
def RATE_LIMIT_ATTEMPTS : Nat := 5

def RATE_LIMIT_WINDOW : Nat := 15 * 60 * 1000

def LOCKOUT_DURATION : Nat := 60 * 60 * 1000

/-- The in-memory rateLimitStore map. -/
abbrev RateLimitStore := String → Option RateLimitState

def emptyRateLimitStore : RateLimitStore := fun _ => none

def setRateState (store : RateLimitStore) (id : String) (st : RateLimitState) :
    RateLimitStore :=
  fun k => if k = id then some st else store k

/-- JS truthiness plus comparison of the guard
state.lockedUntil && now < state.lockedUntil. -/
def lockedActive (now : Nat) (st : RateLimitState) : Bool :=
  match st.lockedUntil with
  | none => false
  | some l => decide (l ≠ 0) && decide (now < l)

/-- Math.ceil(ms / 1000) for the retryAfter fields. -/
def ceilSeconds (ms : Nat) : Nat := (ms + 999) / 1000

/-- checkRateLimit from auth.ts, with Date.now() passed explicitly and the
module-level map threaded through.  Returns ((allowed, retryAfter),
updated store). -/
def checkRateLimit (now : Nat) (identifier : String) (store : RateLimitStore) :
    (Bool × Nat) × RateLimitStore :=
  match store identifier with
  | none =>
      ((true, 0), setRateState store identifier ⟨1, now, none⟩)
  | some state =>
      if lockedActive now state then
        ((false, ceilSeconds (state.lockedUntil.getD 0 - now)), store)
      else if now - state.lastAttempt > RATE_LIMIT_WINDOW then
        ((true, 0), setRateState store identifier ⟨1, now, none⟩)
      else if state.attempts ≥ RATE_LIMIT_ATTEMPTS then
        ((false, ceilSeconds LOCKOUT_DURATION),
          setRateState store identifier
            ⟨state.attempts, now, some (now + LOCKOUT_DURATION)⟩)
      else
        ((true, 0), setRateState store identifier
          ⟨state.attempts + 1, now, state.lockedUntil⟩)

/-- resetRateLimit from auth.ts. -/
def resetRateLimit (identifier : String) (store : RateLimitStore) : RateLimitStore :=
  fun k => if k = identifier then none else store k

/-- Run a sequence of checkRateLimit calls at the given times, collecting
the (allowed, retryAfter) results. -/
def runChecks (identifier : String) : List Nat → RateLimitStore →
    List (Bool × Nat) × RateLimitStore
  | [], store => ([], store)
  | t :: ts, store =>
      let r := checkRateLimit t identifier store
      let rest := runChecks identifier ts r.2
      (r.1 :: rest.1, rest.2)

end Auth

end ApiTokenMonitor

namespace ApiTokenMonitor

namespace Storage

/-! ## The storage module (localStorage-backed user records) -/

/-- ApiKey entries stored inside a user record. -/
structure ApiKey where
  id : String
  provider : String
  key : String
  usage : Nat
  limit : Nat

deriving DecidableEq, Repr

/-- UserData from src/src/types.  The role field is a plain string in the
model because createUser casts its string argument without validating it. -/
structure UserData where
  uuid : String
  tokenHash : String
  apiKeys : List ApiKey
  createdAt : String
  lastAccess : String
  role : String
  permissions : List String

deriving DecidableEq, Repr

/-- localStorage contents relevant to the store: the users index plus the
per-user entries keyed by their storage key.  JSON round-trips of the
records are modelled as the identity. -/
structure StorageState where
  index : List String
  users : String → Option UserData

def emptyStorage : StorageState := ⟨[], fun _ => none⟩

/-- The spec names this failure ValidationError; the source throws
Error("Invalid UUID format"). -/
inductive StoreError where
  | ValidationError

deriving DecidableEq, Repr

def STORAGE_PREFIX : String := "api_token_monitor_v2_"

def getUserKey (uuid : String) : String := STORAGE_PREFIX ++ "user_" ++ uuid

/-- Hex character of either case, as the case-insensitive [0-9a-f] class. -/
def isHexCharCI (c : Char) : Bool :=
  c.isDigit || ('a' ≤ c && c ≤ 'f') || ('A' ≤ c && c ≤ 'F')

/-- isValidUUID from the storage module: the anchored case-insensitive
regexp over five dash-separated hex groups of lengths 8-4-4-4-12,
expressed through the same splitting the regexp induces. -/
def isValidUUID (uuid : String) : Bool :=
  let parts := splitOn '-' uuid.data
  decide (parts.map List.length = [8, 4, 4, 4, 12])
    && parts.all (fun g => g.all isHexCharCI)

/-- saveUserData: validates the UUID, writes the record under its storage
key, and appends the uuid to the index when absent. -/
def saveUserData (userData : UserData) (store : StorageState) :
    Except StoreError StorageState :=
  if !isValidUUID userData.uuid then
    .error .ValidationError
  else
    .ok ⟨if userData.uuid ∈ store.index then store.index
          else store.index ++ [userData.uuid],
        fun k => if k = getUserKey userData.uuid then some userData else store.users k⟩

/-- loadUserData: validates the UUID, then reads the record; a missing
entry is null, not an error. -/
def loadUserData (uuid : String) (store : StorageState) :
    Except StoreError (Option UserData) :=
  if !isValidUUID uuid then
    .error .ValidationError
  else
    .ok (store.users (getUserKey uuid))

/-- The linear scan of findUserByTokenHash over the users index. -/
def findUserAux (users : String → Option UserData) (tokenHash : String) :
    List String → Option UserData
  | [] => none
  | uuid :: rest =>
      match users (getUserKey uuid) with
      | some user =>
          if user.tokenHash = tokenHash then some user
          else findUserAux users tokenHash rest
      | none => findUserAux users tokenHash rest

/-- findUserByTokenHash: first index entry whose record carries the hash. -/
def findUserByTokenHash (tokenHash : String) (store : StorageState) :
    Option UserData :=
  findUserAux store.users tokenHash store.index

/-- createUser: fresh UUID (passed explicitly) and creation time, default
permissions [read:dashboard], persisted via saveUserData. -/
def createUser (tokenHash role uuid now : String) (store : StorageState) :
    Except StoreError (UserData × StorageState) :=
  let userData : UserData :=
    ⟨uuid, tokenHash, [], now, now, role, ["read:dashboard"]⟩
  match saveUserData userData store with
  | .error e => .error e
  | .ok storeNext => .ok (userData, storeNext)

end Storage

end ApiTokenMonitor

namespace ApiTokenMonitor

namespace UseAuth

/-! ## src/src/hooks/useAuth.tsx -/

open Storage

/-- The elevated permission list assigned to the in-memory admin user
object after createUser has persisted the record. -/
def adminPermissions : List String :=
  ["read:dashboard", "modify:settings", "manage:providers", "admin:access"]

/-- Result of a login call: the returned boolean, the session view of the
user (the object placed in React state), and the updated store. -/
structure LoginResult where
  success : Bool
  sessionUser : Option UserData
  store : StorageState

/-- login from useAuth.tsx.  cfg is import.meta.env.VITE_ADMIN_TOKEN_HASH;
salt is the fresh randomness consumed by hashToken; uuid and now feed
createUser.  The permissions assignment after createUser mutates only the
in-memory object: the record was already serialized into storage, so the
persisted copy keeps its default permissions.  Any thrown error is caught
and yields false. -/
def login (cfg : Option String) (inputToken : String) (salt : Bytes)
    (uuid now : String) (store : StorageState) : LoginResult :=
  let tokenHash := Crypto.hashToken inputToken salt
  match findUserByTokenHash tokenHash store with
  | some userData => ⟨true, some userData, store⟩
  | none =>
      if Crypto.envTruthy cfg
          && Crypto.verifyToken cfg inputToken (cfg.getD "") then
        match createUser tokenHash "admin" uuid now store with
        | .ok (adminUser, storeNext) =>
            ⟨true, some { adminUser with permissions := adminPermissions },
              storeNext⟩
        | .error _ => ⟨false, none, store⟩
      else
        ⟨false, none, store⟩

end UseAuth

end ApiTokenMonitor

namespace ApiTokenMonitor

/-! ## Claim theorems -/

open Crypto Auth Storage UseAuth

end ApiTokenMonitor

namespace ApiTokenMonitor

theorem charsOfBytes_bytesOfChars (l : List Char) : charsOfBytes (bytesOfChars l) = l := by
  induction l with
  | nil => rfl
  | cons c cs ih =>
      have hdecomp : c.toNat / 65536 * 65536 + c.toNat / 256 % 256 * 256 + c.toNat % 256
          = c.toNat := by omega
      simp only [bytesOfChars, charBytes, List.cons_append, List.append_eq,
        List.nil_append, charsOfBytes, ih, hdecomp, Char.ofNat_toNat]

theorem textDecode_textEncode (s : String) : textDecode (textEncode s) = s := by
  have h := charsOfBytes_bytesOfChars s.data
  simp only [textDecode, textEncode, h]

theorem textEncode_injective : Function.Injective textEncode := by
  intro a b h
  have h2 : textDecode (textEncode a) = textDecode (textEncode b) := by rw [h]
  rwa [textDecode_textEncode, textDecode_textEncode] at h2

theorem charBytes_lt (c : Char) : ∀ b ∈ charBytes c, b < 256 := by
  intro b hb
  have hv : c.toNat < 1114112 := by
    have h := c.valid
    simp only [Char.toNat]
    rcases h with h | h
    · omega
    · omega
  simp only [charBytes, List.mem_cons, List.mem_singleton, List.not_mem_nil, or_false] at hb
  rcases hb with rfl | rfl | rfl
  · omega
  · omega
  · omega

theorem bytesOfChars_lt (l : List Char) : ∀ b ∈ bytesOfChars l, b < 256 := by
  induction l with
  | nil => intro b hb; simp [bytesOfChars] at hb
  | cons c cs ih =>
      intro b hb
      simp only [bytesOfChars, List.mem_append] at hb
      rcases hb with hb | hb
      · exact charBytes_lt c b hb
      · exact ih b hb

theorem textEncode_lt (s : String) : ∀ b ∈ textEncode s, b < 256 :=
  bytesOfChars_lt s.data

theorem bytesOfChars_length (l : List Char) : (bytesOfChars l).length = 3 * l.length := by
  induction l with
  | nil => rfl
  | cons c cs ih =>
      simp only [bytesOfChars, charBytes, List.length_append, List.length_cons, ih]
      simp only [List.length_nil]
      omega

theorem hexDigit_lt_cases (n : Nat) (h : n < 16) :
    (hexDigit n).toNat = if n < 10 then 48 + n else 87 + n := by
  interval_cases n <;> rfl

theorem hexVal?_hexDigit (n : Nat) (h : n < 16) : hexVal? (hexDigit n) = some n := by
  interval_cases n <;> rfl

theorem hexDigit_injOn (m n : Nat) (hm : m < 16) (hn : n < 16)
    (h : hexDigit m = hexDigit n) : m = n := by
  have h1 := hexVal?_hexDigit m hm
  have h2 := hexVal?_hexDigit n hn
  rw [h] at h1
  rw [h1] at h2
  exact (Option.some.injEq _ _).mp h2

theorem hexDigit_ne_dollar (n : Nat) (h : n < 16) : hexDigit n ≠ '$' := by
  interval_cases n <;> decide

theorem hexDigit_ne_dash (n : Nat) (h : n < 16) : hexDigit n ≠ '-' := by
  interval_cases n <;> decide

theorem hexOfBytes_ne_sep (l : Bytes) (hl : ∀ b ∈ l, b < 256) :
    ∀ c ∈ hexOfBytes l, c ≠ '$' := by
  induction l with
  | nil => intro c hc; simp [hexOfBytes] at hc
  | cons b bs ih =>
      intro c hc
      have hb : b < 256 := hl b (List.mem_cons_self ..)
      simp only [hexOfBytes, byteToHex, List.cons_append, List.nil_append,
        List.mem_cons] at hc
      rcases hc with rfl | rfl | hc
      · exact hexDigit_ne_dollar _ (by omega)
      · exact hexDigit_ne_dollar _ (by omega)
      · exact ih (fun x hx => hl x (List.mem_cons_of_mem _ hx)) c hc

theorem bytesOfHex_hexOfBytes (l : Bytes) (hl : ∀ b ∈ l, b < 256) :
    bytesOfHex (hexOfBytes l) = l := by
  induction l with
  | nil => rfl
  | cons b bs ih =>
      have hb : b < 256 := hl b (List.mem_cons_self ..)
      have hdiv : b / 16 < 16 := by omega
      have hmod : b % 16 < 16 := by omega
      simp only [hexOfBytes, byteToHex, List.cons_append, List.append_eq,
        List.nil_append, bytesOfHex, chunkPairs, List.map_cons, parseHexPair,
        hexVal?_hexDigit _ hdiv, hexVal?_hexDigit _ hmod]
      have hrec := ih (fun x hx => hl x (List.mem_cons_of_mem _ hx))
      simp only [bytesOfHex] at hrec
      rw [hrec]
      have : b / 16 * 16 + b % 16 = b := by omega
      rw [this]

theorem hexOfBytes_injOn (a b : Bytes) (ha : ∀ x ∈ a, x < 256) (hb : ∀ x ∈ b, x < 256)
    (h : hexOfBytes a = hexOfBytes b) : a = b := by
  have h2 : bytesOfHex (hexOfBytes a) = bytesOfHex (hexOfBytes b) := by rw [h]
  rwa [bytesOfHex_hexOfBytes a ha, bytesOfHex_hexOfBytes b hb] at h2

theorem splitOn_ne_nil (sep : Char) (l : List Char) : splitOn sep l ≠ [] := by
  induction l with
  | nil => simp [splitOn]
  | cons c cs ih =>
      by_cases h : c = sep
      · simp [splitOn, h]
      · simp only [splitOn, if_neg h]
        cases hs : splitOn sep cs with
        | nil => simp
        | cons g gs => simp

theorem splitOn_sep_cons (sep : Char) (l : List Char) :
    splitOn sep (sep :: l) = [] :: splitOn sep l := by
  simp [splitOn]

theorem splitOn_append_no_sep (sep : Char) (l rest : List Char)
    (hl : ∀ c ∈ l, c ≠ sep) :
    splitOn sep (l ++ sep :: rest) = l :: splitOn sep rest := by
  induction l with
  | nil => simp [splitOn]
  | cons c cs ih =>
      have hc : c ≠ sep := hl c (List.mem_cons_self ..)
      have hrec := ih (fun x hx => hl x (List.mem_cons_of_mem _ hx))
      simp only [List.cons_append, splitOn, if_neg hc, List.append_eq, hrec]

theorem splitOn_no_sep (sep : Char) (l : List Char) (hl : ∀ c ∈ l, c ≠ sep) :
    splitOn sep l = [l] := by
  induction l with
  | nil => rfl
  | cons c cs ih =>
      have hc : c ≠ sep := hl c (List.mem_cons_self ..)
      have hrec := ih (fun x hx => hl x (List.mem_cons_of_mem _ hx))
      simp only [splitOn, if_neg hc, hrec]

theorem lenBytes4_length (n : Nat) : (lenBytes4 n).length = 4 := rfl

theorem lenBytes4_lt (n : Nat) : ∀ b ∈ lenBytes4 n, b < 256 := by
  intro b hb
  simp only [lenBytes4, List.mem_cons, List.not_mem_nil, or_false] at hb
  rcases hb with rfl | rfl | rfl | rfl <;> omega

theorem lenBytes4_inj (a b : Nat) (ha : a < 4294967296) (hb : b < 4294967296)
    (h : lenBytes4 a = lenBytes4 b) : a = b := by
  simp only [lenBytes4, List.cons.injEq, and_true] at h
  omega

/-- Bitwise or of naturals is zero exactly when both are. -/
theorem or_eq_zero (m n : Nat) : m ||| n = 0 ↔ m = 0 ∧ n = 0 := by
  constructor
  · intro h
    refine ⟨Nat.eq_of_testBit_eq fun i => ?_, Nat.eq_of_testBit_eq fun i => ?_⟩ <;>
    · have hb := congrArg (fun x => Nat.testBit x i) h
      simp only [Nat.testBit_or, Nat.zero_testBit, Bool.or_eq_false_iff] at hb
      simp [hb.1, hb.2]
  · rintro ⟨rfl, rfl⟩
    rfl

theorem string_data_inj {a b : String} (h : a.data = b.data) : a = b := by
  cases a; cases b; simp_all

end ApiTokenMonitor

namespace ApiTokenMonitor

namespace Crypto

theorem deriveBits_lt (password salt : Bytes) (iterations : Nat)
    (hp : ∀ b ∈ password, b < 256) (hs : ∀ b ∈ salt, b < 256) :
    ∀ b ∈ deriveBits password salt iterations, b < 256 := by
  intro b hb
  simp only [deriveBits, List.mem_append] at hb
  rcases hb with ((hb | hb) | hb) | hb
  · exact lenBytes4_lt _ b hb
  · exact lenBytes4_lt _ b hb
  · exact hp b hb
  · exact hs b hb

theorem deriveBits_inj_password (p q salt : Bytes) (iterations : Nat)
    (h : deriveBits p salt iterations = deriveBits q salt iterations) : p = q := by
  simp only [deriveBits, List.append_assoc] at h
  have h1 := List.append_cancel_left h
  have h2 := List.append_inj h1 (by simp [lenBytes4_length])
  exact List.append_cancel_right h2.2

theorem deriveBits_inj_salt (p s t : Bytes) (iterations : Nat)
    (h : deriveBits p s iterations = deriveBits p t iterations) : s = t := by
  simp only [deriveBits] at h
  exact List.append_cancel_left h

theorem xorAccum_foldl_eq_zero (l : List (Nat × Nat)) (acc : Nat) :
    l.foldl (fun r p => r ||| (p.1 ^^^ p.2)) acc = 0
      ↔ acc = 0 ∧ ∀ p ∈ l, p.1 = p.2 := by
  induction l generalizing acc with
  | nil => simp
  | cons p ps ih =>
      simp only [List.foldl_cons, ih, or_eq_zero, Nat.xor_eq_zero, List.mem_cons]
      constructor
      · rintro ⟨⟨h0, hp⟩, hps⟩
        exact ⟨h0, fun q hq => by rcases hq with rfl | hq; exact hp; exact hps q hq⟩
      · rintro ⟨h0, hall⟩
        exact ⟨⟨h0, hall p (Or.inl rfl)⟩, fun q hq => hall q (Or.inr hq)⟩

theorem xorAccum_eq_zero (xs ys : List Nat) (hlen : xs.length = ys.length) :
    xorAccum xs ys = 0 ↔ xs = ys := by
  rw [xorAccum, xorAccum_foldl_eq_zero]
  simp only [true_and]
  constructor
  · intro h
    exact List.ext_getElem hlen fun i h1 h2 => by
      have := h (xs[i], ys[i]) (by
        rw [List.zip_eq_zipWith]
        exact List.mem_iff_getElem.mpr ⟨i, by simp [List.length_zipWith, hlen]; omega,
          by simp⟩)
      exact this
  · rintro rfl p hp
    have := @List.zip_eq_zipWith _ _ xs xs
    rw [this] at hp
    have := List.mem_iff_getElem.mp hp
    rcases this with ⟨i, hi, hval⟩
    simp only [List.getElem_zipWith] at hval
    rw [← hval]

theorem char_toNat_injective : Function.Injective Char.toNat := by
  intro a b h
  have := congrArg Char.ofNat h
  rwa [Char.ofNat_toNat, Char.ofNat_toNat] at this

theorem constantTimeEqual_eq_true_iff (a b : String) :
    constantTimeEqual a b = true ↔ a = b := by
  unfold constantTimeEqual
  by_cases hlen : (a.data.map Char.toNat).length = (b.data.map Char.toNat).length
  · rw [if_neg (fun hne => hne hlen), decide_eq_true_eq, xorAccum_eq_zero _ _ hlen]
    constructor
    · intro h
      exact string_data_inj ((List.map_injective_iff.mpr char_toNat_injective) h)
    · rintro rfl; rfl
  · rw [if_pos hlen, Bool.and_false]
    constructor
    · intro h; exact absurd h (by simp)
    · intro heq; subst heq; exact absurd rfl hlen

theorem constantTimeEqual_self (a : String) : constantTimeEqual a a = true :=
  (constantTimeEqual_eq_true_iff a a).mpr rfl

theorem constantTimeEqual_ne (a b : String) (h : a ≠ b) :
    constantTimeEqual a b = false := by
  by_contra hc
  have : constantTimeEqual a b = true := by
    cases hx : constantTimeEqual a b
    · exact absurd hx hc
    · rfl
  exact h ((constantTimeEqual_eq_true_iff a b).mp this)

theorem aesGcmEncrypt_length (p s i d : Bytes) :
    (aesGcmEncrypt p s i d).length
      = 16 + 2 * d.length + p.length + s.length + i.length := by
  simp only [aesGcmEncrypt, List.length_append, lenBytes4_length]
  omega

/-- Right-nested form of the encryption blob. -/
theorem aesGcmEncrypt_assoc (p s i d : Bytes) :
    aesGcmEncrypt p s i d
      = lenBytes4 d.length ++ (d ++ (lenBytes4 p.length ++ (p ++ (lenBytes4 s.length
          ++ (s ++ (lenBytes4 i.length ++ (i ++ d))))))) := by
  simp [aesGcmEncrypt, List.append_assoc]

/-- The plaintext read back from positions 4..4+n of the blob. -/
theorem aesGcmEncrypt_extract_front (p s i d : Bytes) :
    ((aesGcmEncrypt p s i d).drop 4).take d.length = d := by
  rw [aesGcmEncrypt_assoc, List.drop_left' (lenBytes4_length _), List.take_left' rfl]

/-- The plaintext read back from the last n positions of the blob. -/
theorem aesGcmEncrypt_extract_back (p s i d : Bytes) :
    (aesGcmEncrypt p s i d).drop ((aesGcmEncrypt p s i d).length - d.length) = d := by
  conv =>
    lhs
    rw [aesGcmEncrypt]
  rw [List.drop_left']
  simp only [List.length_append, lenBytes4_length]
  omega

theorem aesGcmDecrypt_encrypt (p s i d : Bytes) :
    aesGcmDecrypt p s i (aesGcmEncrypt p s i d) = some d := by
  unfold aesGcmDecrypt
  have hlen := aesGcmEncrypt_length p s i d
  rw [if_neg (by omega), if_neg (by omega)]
  have hn : ((aesGcmEncrypt p s i d).length - (16 + p.length + s.length + i.length)) / 2
      = d.length := by omega
  rw [hn]
  simp only [aesGcmEncrypt_extract_front]
  simp

theorem aesGcmEncrypt_inj (p q s i d e : Bytes)
    (hd : d.length < 4294967296) (he : e.length < 4294967296)
    (hp : p.length < 4294967296) (hq : q.length < 4294967296)
    (h : aesGcmEncrypt p s i d = aesGcmEncrypt q s i e) : p = q ∧ d = e := by
  rw [aesGcmEncrypt_assoc, aesGcmEncrypt_assoc] at h
  have h1 := List.append_inj h (by rw [lenBytes4_length, lenBytes4_length])
  have hde : d.length = e.length := lenBytes4_inj _ _ hd he h1.1
  have h2 := List.append_inj h1.2 hde
  have h3 := List.append_inj h2.2 (by rw [lenBytes4_length, lenBytes4_length])
  have hpq : p.length = q.length := lenBytes4_inj _ _ hp hq h3.1
  have h4 := List.append_inj h3.2 hpq
  exact ⟨h4.1, h2.1⟩

/-- A blob that is not a well-formed encryption under the given key and
nonce never decrypts. -/
theorem aesGcmDecrypt_eq_none_of_ne (p s i ct : Bytes)
    (h : ∀ d, ct ≠ aesGcmEncrypt p s i d) : aesGcmDecrypt p s i ct = none := by
  unfold aesGcmDecrypt
  by_cases h1 : ct.length < 16 + p.length + s.length + i.length
  · rw [if_pos h1]
  · rw [if_neg h1]
    by_cases h2 : (ct.length - (16 + p.length + s.length + i.length)) % 2 ≠ 0
    · rw [if_pos h2]
    · rw [if_neg h2]
      rw [if_neg (h _)]

/-- Decryption under a different key never succeeds (ideal-cipher model;
the length bounds make the four-byte length fields unambiguous). -/
theorem aesGcmDecrypt_wrong_key (p q s i d : Bytes) (hpq : p ≠ q)
    (hd : d.length ≤ 268435456) (hp : p.length ≤ 268435456)
    (hq : q.length ≤ 268435456) :
    aesGcmDecrypt q s i (aesGcmEncrypt p s i d) = none := by
  apply aesGcmDecrypt_eq_none_of_ne
  intro e hcheck
  have hlen := aesGcmEncrypt_length p s i d
  have hlene := aesGcmEncrypt_length q s i e
  have hlcongr := congrArg List.length hcheck
  rw [hlen, hlene] at hlcongr
  have := aesGcmEncrypt_inj p q s i d e (by omega) (by omega) (by omega) (by omega)
    hcheck
  exact hpq this.1

/-- Any single-position modification of an encryption blob fails to
decrypt: a change inside the ciphertext body shows up in the integrity
part, a change in the integrity part no longer matches the body. -/
theorem aesGcmDecrypt_tampered (p s i d : Bytes) (idx b : Nat)
    (hne : (aesGcmEncrypt p s i d).set idx b ≠ aesGcmEncrypt p s i d) :
    aesGcmDecrypt p s i ((aesGcmEncrypt p s i d).set idx b) = none := by
  apply aesGcmDecrypt_eq_none_of_ne
  intro e hcheck
  have hlenct : ((aesGcmEncrypt p s i d).set idx b).length
      = (aesGcmEncrypt p s i d).length := List.length_set ..
  have hlen := aesGcmEncrypt_length p s i d
  have hlene := aesGcmEncrypt_length p s i e
  have hel : e.length = d.length := by
    have hc := congrArg List.length hcheck
    rw [hlenct, hlen, hlene] at hc
    omega
  have hed : e = d := by
    rcases Nat.lt_or_ge idx 4 with hidx | hidx
    · have h1 : (((aesGcmEncrypt p s i d).set idx b).drop 4).take d.length = d := by
        rw [List.drop_set_of_lt _ _ hidx, aesGcmEncrypt_extract_front]
      have h2 : (((aesGcmEncrypt p s i d).set idx b).drop 4).take d.length = e := by
        rw [hcheck, ← hel, aesGcmEncrypt_extract_front]
      rw [h1] at h2
      exact h2.symm
    rcases Nat.lt_or_ge idx (4 + d.length) with hidx2 | hidx2
    · have hpos : idx < (aesGcmEncrypt p s i d).length - d.length := by omega
      have h1 : ((aesGcmEncrypt p s i d).set idx b).drop
          ((aesGcmEncrypt p s i d).length - d.length) = d := by
        rw [List.drop_set_of_lt _ _ hpos, aesGcmEncrypt_extract_back]
      have h2 : ((aesGcmEncrypt p s i d).set idx b).drop
          ((aesGcmEncrypt p s i d).length - d.length) = e := by
        rw [hcheck]
        have hidxeq : (aesGcmEncrypt p s i d).length - d.length
            = (aesGcmEncrypt p s i e).length - e.length := by omega
        rw [hidxeq, aesGcmEncrypt_extract_back]
      rw [h1] at h2
      exact h2.symm
    · have hd4 : ((aesGcmEncrypt p s i d).set idx b).drop 4
          = ((aesGcmEncrypt p s i d).drop 4).set (idx - 4) b := by
        have h4 : 4 + (idx - 4) = idx := by omega
        rw [← h4, ← List.set_drop]
        congr 1
        omega
      have h1 : (((aesGcmEncrypt p s i d).set idx b).drop 4).take d.length = d := by
        rw [hd4, List.set_take,
          List.set_eq_of_length_le
            (le_trans (List.length_take_le ..) (by omega)),
          aesGcmEncrypt_extract_front]
      have h2 : (((aesGcmEncrypt p s i d).set idx b).drop 4).take d.length = e := by
        rw [hcheck, ← hel, aesGcmEncrypt_extract_front]
      rw [h1] at h2
      exact h2.symm
  rw [hed] at hcheck
  exact hne hcheck

end Crypto

end ApiTokenMonitor

namespace ApiTokenMonitor

namespace Auth

theorem constantTimeEqualBytes_eq_true_iff (a b : String) :
    constantTimeEqual a b = true ↔ a = b := by
  unfold constantTimeEqual
  by_cases hlen : (textEncode a).length = (textEncode b).length
  · rw [if_neg (fun hne => hne hlen), decide_eq_true_eq,
      Crypto.xorAccum_eq_zero _ _ hlen]
    constructor
    · intro h
      exact textEncode_injective h
    · rintro rfl; rfl
  · rw [if_pos hlen, Bool.and_false]
    constructor
    · intro h; exact absurd h (by simp)
    · intro heq; subst heq; exact absurd rfl hlen

end Auth

end ApiTokenMonitor

namespace ApiTokenMonitor

namespace Storage

theorem getUserKey_inj (u v : String) (h : getUserKey u = getUserKey v) : u = v := by
  unfold getUserKey at h
  have hd : (STORAGE_PREFIX ++ "user_" ++ u).data = (STORAGE_PREFIX ++ "user_" ++ v).data := by
    rw [h]
  simp only [String.data_append, List.append_assoc] at hd
  have := List.append_cancel_left (List.append_cancel_left hd)
  exact string_data_inj this

end Storage

end ApiTokenMonitor

namespace ApiTokenMonitor

namespace UseAuth

/-! ## src/src/hooks/useAuth.tsx -/

open Storage

end UseAuth

end ApiTokenMonitor

namespace ApiTokenMonitor

/-! ## Claim theorems -/

open Crypto Auth Storage UseAuth

/-- C1: for every secret string S and passphrase P (and any salt and iv
drawn for the call), decryptApiKey(encryptApiKey(S, P), P) returns S. -/
theorem claim_encrypt_decrypt_roundtrip (S P : String) (salt iv : Bytes) :
    decryptApiKey (encryptApiKey S P salt iv) P = .ok S := by
  unfold decryptApiKey encryptApiKey
  simp only [aesGcmDecrypt_encrypt]
  rw [textDecode_textEncode]

/-- C4: changing any single byte of the ciphertext-plus-tag field of an
encrypted blob makes decryptApiKey fail with IntegrityError instead of
returning plaintext, and decrypting with a different passphrase fails the
same way (length bounds keep the ideal-cipher model unambiguous). -/
theorem claim_tamper_detection (S P Q : String) (salt iv : Bytes) (idx b : Nat)
    (hmod : ((encryptApiKey S P salt iv).data).set idx b
      ≠ (encryptApiKey S P salt iv).data)
    (hPQ : P ≠ Q) (hS : S.length ≤ 1000000) (hP : P.length ≤ 1000000)
    (hQ : Q.length ≤ 1000000) :
    decryptApiKey ⟨salt, iv, ((encryptApiKey S P salt iv).data).set idx b⟩ P
        = .error .IntegrityError
      ∧ decryptApiKey (encryptApiKey S P salt iv) Q = .error .IntegrityError := by
  have henc : (encryptApiKey S P salt iv).data
      = aesGcmEncrypt (textEncode P) salt iv (textEncode S) := rfl
  constructor
  · unfold decryptApiKey
    rw [henc] at hmod ⊢
    rw [aesGcmDecrypt_tampered _ _ _ _ _ _ hmod]
  · unfold decryptApiKey
    have hsalt : (encryptApiKey S P salt iv).salt = salt := rfl
    have hiv : (encryptApiKey S P salt iv).iv = iv := rfl
    rw [henc, hsalt, hiv]
    have hb : (textEncode S).length = 3 * S.length := bytesOfChars_length _
    have hbP : (textEncode P).length = 3 * P.length := bytesOfChars_length _
    have hbQ : (textEncode Q).length = 3 * Q.length := bytesOfChars_length _
    rw [aesGcmDecrypt_wrong_key (textEncode P) (textEncode Q) salt iv (textEncode S)
      (fun h => hPQ (textEncode_injective h)) (by omega) (by omega) (by omega)]

/-- Witness for C4 at concrete inputs. -/
theorem claim_tamper_detection_witness :
    decryptApiKey ⟨[0], [1], ((encryptApiKey "k" "p" [0] [1]).data).set 4 99⟩ "p"
        = .error .IntegrityError
      ∧ decryptApiKey (encryptApiKey "k" "p" [0] [1]) "q" = .error .IntegrityError :=
  claim_tamper_detection "k" "p" "q" [0] [1] 4 99 (by decide) (by decide)
    (by decide) (by decide) (by decide)

/-- C5: both constant-time comparators return true exactly on equal
inputs; on every unequal pair, including length mismatches, they return
false. -/
theorem claim_constant_time_equal (a b : String) :
    (Crypto.constantTimeEqual a b = true ↔ a = b)
      ∧ (Auth.constantTimeEqual a b = true ↔ a = b) :=
  ⟨Crypto.constantTimeEqual_eq_true_iff a b, Auth.constantTimeEqualBytes_eq_true_iff a b⟩

theorem data_mk (l : List Char) : (String.mk l).data = l := rfl

/-- Splitting an encoded hash produced by hashToken recovers its six
fields. -/
theorem splitOn_hashToken (T : String) (salt : Bytes) (hsalt : ∀ b ∈ salt, b < 256) :
    splitOn '$' (hashToken T salt).data
      = [[], "pbkdf2".data, "sha256".data, "100000".data,
          hexOfBytes salt, hexOfBytes (deriveBits (textEncode T) salt 100000)] := by
  have hdig : ∀ b ∈ deriveBits (textEncode T) salt 100000, b < 256 :=
    deriveBits_lt _ _ _ (textEncode_lt T) hsalt
  have hdata : (hashToken T salt).data
      = '$' :: ("pbkdf2".data ++ '$' :: ("sha256".data ++ '$' :: ("100000".data
          ++ '$' :: (hexOfBytes salt
            ++ '$' :: hexOfBytes (deriveBits (textEncode T) salt 100000))))) := by
    have hlit : ("$pbkdf2$sha256$100000$" : String).data
        = '$' :: ("pbkdf2".data ++ '$' :: ("sha256".data
            ++ '$' :: ("100000".data ++ ['$']))) := by decide
    have hdol : ("$" : String).data = ['$'] := by decide
    unfold hashToken
    simp only [String.data_append, hexEncode, data_mk, hlit, hdol,
      List.append_assoc, List.cons_append, List.nil_append, List.singleton_append]
  rw [hdata, splitOn_sep_cons,
    splitOn_append_no_sep '$' _ _ (by decide),
    splitOn_append_no_sep '$' _ _ (by decide),
    splitOn_append_no_sep '$' _ _ (by decide),
    splitOn_append_no_sep '$' _ _ (hexOfBytes_ne_sep salt hsalt),
    splitOn_no_sep '$' _ (hexOfBytes_ne_sep _ hdig)]

theorem chunkPairs_hexOfBytes_isEmpty_false (b : Nat) (bs : Bytes) :
    (chunkPairs (hexOfBytes (b :: bs))).isEmpty = false := by
  simp [hexOfBytes, byteToHex, chunkPairs]

/-- C2: verifying a token against the encoded hash that hashToken just
produced for it succeeds, for any admin-token configuration and any real
(nonempty, byte-valued) salt. -/
theorem claim_verify_hashToken (cfg : Option String) (T : String) (salt : Bytes)
    (hsalt : ∀ b ∈ salt, b < 256) (hne : salt ≠ []) :
    verifyToken cfg T (hashToken T salt) = true := by
  unfold verifyToken
  by_cases hadm : (envTruthy cfg && Crypto.constantTimeEqual T (cfg.getD "")) = true
  · rw [if_pos hadm]
  · rw [if_neg hadm]
    rw [splitOn_hashToken T salt hsalt]
    have h100 : parseDecimal ("100000".data) = some 100000 := by decide
    have hchunks : (chunkPairs (hexOfBytes salt)).isEmpty = false := by
      cases salt with
      | nil => exact absurd rfl hne
      | cons b bs => exact chunkPairs_hexOfBytes_isEmpty_false b bs
    have hmap : List.map parseHexPair (chunkPairs (hexOfBytes salt)) = salt := by
      have h := bytesOfHex_hexOfBytes salt hsalt
      unfold bytesOfHex at h
      exact h
    simp only [List.length_cons, List.length_nil, List.getD_cons_succ,
      List.getD_cons_zero, h100, hchunks, hmap, Bool.false_eq_true,
      if_false, if_true]
    exact constantTimeEqual_self _

/-- Witness for C2 at concrete inputs. -/
theorem claim_verify_hashToken_witness :
    verifyToken none "token123" (hashToken "token123" [1, 2, 3]) = true :=
  claim_verify_hashToken none "token123" [1, 2, 3] (by decide) (by decide)

/-- C3 counterexample: with the bootstrap-admin value configured to the
probe token itself, verifyToken accepts that token against the hash of a
different token, so the rejection property fails for that configuration. -/
theorem claim_hash_rejection_counterexample :
    ("a" : String) ≠ "b"
      ∧ verifyToken (some "b") "b" (hashToken "a" [0]) = true := by
  constructor
  · decide
  · decide

/-- C3 (amended): for distinct tokens T1 and T2, verifying T2 against a
hash of T1 returns false for every bootstrap-admin configuration except
the one the counterexample forces out: a configured nonempty admin value
equal to T2, which the admin short-circuit accepts. -/
theorem claim_hash_rejection (cfg : Option String) (T1 T2 : String) (salt : Bytes)
    (hT : T1 ≠ T2) (hsalt : ∀ b ∈ salt, b < 256) (hne : salt ≠ [])
    (hadm : (envTruthy cfg && Crypto.constantTimeEqual T2 (cfg.getD "")) ≠ true) :
    verifyToken cfg T2 (hashToken T1 salt) = false := by
  unfold verifyToken
  rw [if_neg hadm]
  rw [splitOn_hashToken T1 salt hsalt]
  have h100 : parseDecimal ("100000".data) = some 100000 := by decide
  have hchunks : (chunkPairs (hexOfBytes salt)).isEmpty = false := by
    cases salt with
    | nil => exact absurd rfl hne
    | cons b bs => exact chunkPairs_hexOfBytes_isEmpty_false b bs
  have hmap : List.map parseHexPair (chunkPairs (hexOfBytes salt)) = salt := by
    have h := bytesOfHex_hexOfBytes salt hsalt
    unfold bytesOfHex at h
    exact h
  simp only [List.length_cons, List.length_nil, List.getD_cons_succ,
    List.getD_cons_zero, h100, hchunks, hmap, Bool.false_eq_true,
    if_false, if_true]
  apply constantTimeEqual_ne
  intro hstr
  have hdata := congrArg String.data hstr
  simp only [data_mk] at hdata
  have hd := hexOfBytes_injOn _ _
    (deriveBits_lt _ _ _ (textEncode_lt T2) hsalt)
    (deriveBits_lt _ _ _ (textEncode_lt T1) hsalt) hdata
  have hp := deriveBits_inj_password _ _ _ _ hd
  exact hT (textEncode_injective hp).symm

/-- Witness for C3 (amended) at concrete inputs. -/
theorem claim_hash_rejection_witness :
    verifyToken none "b" (hashToken "a" [3, 5]) = false :=
  claim_hash_rejection none "a" "b" [3, 5] (by decide) (by decide) (by decide)
    (by decide)

theorem setRateState_self (store : RateLimitStore) (id : String) (st : RateLimitState) :
    setRateState store id st id = some st := by
  unfold setRateState
  rw [if_pos rfl]

theorem checkRateLimit_fresh (now : Nat) (id : String) (store : RateLimitStore)
    (h : store id = none) :
    checkRateLimit now id store = ((true, 0), setRateState store id ⟨1, now, none⟩) := by
  simp only [checkRateLimit, h]

theorem checkRateLimit_locked (now : Nat) (id : String) (store : RateLimitStore)
    (st : RateLimitState) (l : Nat) (h : store id = some st)
    (hl : st.lockedUntil = some l) (hl0 : l ≠ 0) (hnow : now < l) :
    checkRateLimit now id store = ((false, ceilSeconds (l - now)), store) := by
  have hla : lockedActive now st = true := by
    unfold lockedActive
    rw [hl]
    simp [hl0, hnow]
  simp only [checkRateLimit, h, hla, if_true, hl, Option.getD_some]

theorem checkRateLimit_reset (now : Nat) (id : String) (store : RateLimitStore)
    (st : RateLimitState) (h : store id = some st)
    (hla : lockedActive now st = false)
    (hw : now - st.lastAttempt > RATE_LIMIT_WINDOW) :
    checkRateLimit now id store = ((true, 0), setRateState store id ⟨1, now, none⟩) := by
  simp only [checkRateLimit, h, hla, Bool.false_eq_true, if_false, if_pos hw]

theorem checkRateLimit_lock (now : Nat) (id : String) (store : RateLimitStore)
    (st : RateLimitState) (h : store id = some st)
    (hla : lockedActive now st = false)
    (hw : ¬ (now - st.lastAttempt > RATE_LIMIT_WINDOW))
    (ha : st.attempts ≥ RATE_LIMIT_ATTEMPTS) :
    checkRateLimit now id store
      = ((false, 3600),
          setRateState store id ⟨st.attempts, now, some (now + LOCKOUT_DURATION)⟩) := by
  simp only [checkRateLimit, h, hla, Bool.false_eq_true, if_false, if_neg hw,
    if_pos ha]
  rfl

theorem checkRateLimit_count (now : Nat) (id : String) (store : RateLimitStore)
    (st : RateLimitState) (h : store id = some st)
    (hla : lockedActive now st = false)
    (hw : ¬ (now - st.lastAttempt > RATE_LIMIT_WINDOW))
    (ha : ¬ (st.attempts ≥ RATE_LIMIT_ATTEMPTS)) :
    checkRateLimit now id store
      = ((true, 0), setRateState store id ⟨st.attempts + 1, now, st.lockedUntil⟩) := by
  simp only [checkRateLimit, h, hla, Bool.false_eq_true, if_false, if_neg hw,
    if_neg ha]

/-- C6: from no state for identifier x, with MAX=5, WINDOW=900s,
LOCKOUT=3600s: five calls inside the window are allowed with retryAfter 0,
the sixth is rejected with retryAfter 3600 seconds, and once time passes
lockedUntil the next call is allowed again. -/
theorem claim_rate_limit_window (t1 t2 t3 t4 t5 t6 t7 : Nat)
    (h12 : t1 ≤ t2) (h23 : t2 ≤ t3) (h34 : t3 ≤ t4) (h45 : t4 ≤ t5) (h56 : t5 ≤ t6)
    (hwin : t6 - t1 ≤ RATE_LIMIT_WINDOW)
    (h7 : t6 + LOCKOUT_DURATION < t7) :
    (runChecks "x" [t1, t2, t3, t4, t5, t6, t7] emptyRateLimitStore).1
      = [(true, 0), (true, 0), (true, 0), (true, 0), (true, 0), (false, 3600),
          (true, 0)] := by
  have hc1 : checkRateLimit t1 "x" emptyRateLimitStore
      = ((true, 0), setRateState emptyRateLimitStore "x" ⟨1, t1, none⟩) :=
    checkRateLimit_fresh _ _ _ rfl
  have hc2 : checkRateLimit t2 "x"
        (setRateState emptyRateLimitStore "x" ⟨1, t1, none⟩)
      = ((true, 0), setRateState
          (setRateState emptyRateLimitStore "x" ⟨1, t1, none⟩) "x" ⟨2, t2, none⟩) :=
    checkRateLimit_count t2 "x" _ ⟨1, t1, none⟩ (setRateState_self ..) rfl
      (by show ¬ (t2 - t1 > RATE_LIMIT_WINDOW); omega)
      (by show ¬ ((1 : Nat) ≥ RATE_LIMIT_ATTEMPTS); decide)
  have hc3 : checkRateLimit t3 "x"
        (setRateState (setRateState emptyRateLimitStore "x" ⟨1, t1, none⟩) "x"
          ⟨2, t2, none⟩)
      = ((true, 0), setRateState
          (setRateState (setRateState emptyRateLimitStore "x" ⟨1, t1, none⟩) "x"
            ⟨2, t2, none⟩) "x" ⟨3, t3, none⟩) :=
    checkRateLimit_count t3 "x" _ ⟨2, t2, none⟩ (setRateState_self ..) rfl
      (by show ¬ (t3 - t2 > RATE_LIMIT_WINDOW); omega)
      (by show ¬ ((2 : Nat) ≥ RATE_LIMIT_ATTEMPTS); decide)
  have hc4 : checkRateLimit t4 "x"
        (setRateState (setRateState (setRateState emptyRateLimitStore "x"
          ⟨1, t1, none⟩) "x" ⟨2, t2, none⟩) "x" ⟨3, t3, none⟩)
      = ((true, 0), setRateState
          (setRateState (setRateState (setRateState emptyRateLimitStore "x"
            ⟨1, t1, none⟩) "x" ⟨2, t2, none⟩) "x" ⟨3, t3, none⟩) "x" ⟨4, t4, none⟩) :=
    checkRateLimit_count t4 "x" _ ⟨3, t3, none⟩ (setRateState_self ..) rfl
      (by show ¬ (t4 - t3 > RATE_LIMIT_WINDOW); omega)
      (by show ¬ ((3 : Nat) ≥ RATE_LIMIT_ATTEMPTS); decide)
  have hc5 : checkRateLimit t5 "x"
        (setRateState (setRateState (setRateState (setRateState emptyRateLimitStore
          "x" ⟨1, t1, none⟩) "x" ⟨2, t2, none⟩) "x" ⟨3, t3, none⟩) "x" ⟨4, t4, none⟩)
      = ((true, 0), setRateState
          (setRateState (setRateState (setRateState (setRateState
            emptyRateLimitStore "x" ⟨1, t1, none⟩) "x" ⟨2, t2, none⟩) "x"
            ⟨3, t3, none⟩) "x" ⟨4, t4, none⟩) "x" ⟨5, t5, none⟩) :=
    checkRateLimit_count t5 "x" _ ⟨4, t4, none⟩ (setRateState_self ..) rfl
      (by show ¬ (t5 - t4 > RATE_LIMIT_WINDOW); omega)
      (by show ¬ ((4 : Nat) ≥ RATE_LIMIT_ATTEMPTS); decide)
  have hc6 : checkRateLimit t6 "x"
        (setRateState (setRateState (setRateState (setRateState (setRateState
          emptyRateLimitStore "x" ⟨1, t1, none⟩) "x" ⟨2, t2, none⟩) "x"
          ⟨3, t3, none⟩) "x" ⟨4, t4, none⟩) "x" ⟨5, t5, none⟩)
      = ((false, 3600), setRateState
          (setRateState (setRateState (setRateState (setRateState (setRateState
            emptyRateLimitStore "x" ⟨1, t1, none⟩) "x" ⟨2, t2, none⟩) "x"
            ⟨3, t3, none⟩) "x" ⟨4, t4, none⟩) "x" ⟨5, t5, none⟩) "x"
          ⟨5, t6, some (t6 + LOCKOUT_DURATION)⟩) :=
    checkRateLimit_lock t6 "x" _ ⟨5, t5, none⟩ (setRateState_self ..) rfl
      (by show ¬ (t6 - t5 > RATE_LIMIT_WINDOW); omega)
      (by show (5 : Nat) ≥ RATE_LIMIT_ATTEMPTS; decide)
  have hla7 : lockedActive t7 ⟨5, t6, some (t6 + LOCKOUT_DURATION)⟩ = false := by
    unfold lockedActive
    have : ¬ (t7 < t6 + LOCKOUT_DURATION) := by omega
    simp [this]
  have hc7 : checkRateLimit t7 "x"
        (setRateState (setRateState (setRateState (setRateState (setRateState
          (setRateState emptyRateLimitStore "x" ⟨1, t1, none⟩) "x" ⟨2, t2, none⟩)
          "x" ⟨3, t3, none⟩) "x" ⟨4, t4, none⟩) "x" ⟨5, t5, none⟩) "x"
          ⟨5, t6, some (t6 + LOCKOUT_DURATION)⟩)
      = ((true, 0), setRateState
          (setRateState (setRateState (setRateState (setRateState (setRateState
            (setRateState emptyRateLimitStore "x" ⟨1, t1, none⟩) "x"
            ⟨2, t2, none⟩) "x" ⟨3, t3, none⟩) "x" ⟨4, t4, none⟩) "x" ⟨5, t5, none⟩)
            "x" ⟨5, t6, some (t6 + LOCKOUT_DURATION)⟩) "x" ⟨1, t7, none⟩) :=
    checkRateLimit_reset t7 "x" _ ⟨5, t6, some (t6 + LOCKOUT_DURATION)⟩
      (setRateState_self ..) hla7
      (by
        show t7 - t6 > RATE_LIMIT_WINDOW
        have hw : RATE_LIMIT_WINDOW = 900000 := rfl
        have hl : LOCKOUT_DURATION = 3600000 := rfl
        omega)
  simp only [runChecks, hc1, hc2, hc3, hc4, hc5, hc6, hc7]

/-- Witness for C6 at concrete times. -/
theorem claim_rate_limit_window_witness :
    (runChecks "x" [0, 1, 2, 3, 4, 5, 3600006] emptyRateLimitStore).1
      = [(true, 0), (true, 0), (true, 0), (true, 0), (true, 0), (false, 3600),
          (true, 0)] :=
  claim_rate_limit_window 0 1 2 3 4 5 3600006 (by decide) (by decide) (by decide)
    (by decide) (by decide) (by decide) (by decide)

/-- C7 counterexample: attempts at 0 ms and 800000 ms, then a check at
950000 ms.  Relative to the first attempt of the window the window length
900000 ms has passed (950000 - 0 > 900000) and no lockout is active, so
the claim predicts a reset to attempts = 1; the code keys the reset to the
most recent attempt (950000 - 800000 ≤ 900000) and instead increments the
counter to 3. -/
theorem claim_window_reset_counterexample :
    950000 - 0 > RATE_LIMIT_WINDOW
      ∧ (runChecks "x" [0, 800000, 950000] emptyRateLimitStore).2 "x"
          = some ⟨3, 950000, none⟩ := by
  decide

/-- C7 (amended): the attempts counter resets to 1 whenever a check
arrives with now minus lastAttempt, the time of the most recent attempt
(the quantity the stored state tracks, instead of the first attempt of the
window), exceeding the window length, except while the lockout guard is
active. -/
theorem claim_window_reset (now : Nat) (id : String) (store : RateLimitStore)
    (st : RateLimitState) (h : store id = some st)
    (hla : lockedActive now st = false)
    (hw : now - st.lastAttempt > RATE_LIMIT_WINDOW) :
    ((checkRateLimit now id store).2) id = some ⟨1, now, none⟩ := by
  rw [checkRateLimit_reset now id store st h hla hw]
  exact setRateState_self ..

/-- Witness for C7 (amended) at concrete inputs. -/
theorem claim_window_reset_witness :
    ((checkRateLimit 1000000 "x"
        (setRateState emptyRateLimitStore "x" ⟨3, 0, none⟩)).2) "x"
      = some ⟨1, 1000000, none⟩ :=
  claim_window_reset 1000000 "x" _ ⟨3, 0, none⟩ (setRateState_self ..) rfl
    (by decide)

/-- C8: loadUserData fails with ValidationError on a syntactically invalid
UUID no matter what the backing store holds (it never consults it), and
returns null without an error for a well-formed UUID that is absent. -/
theorem claim_store_uuid_validation (id : String) (store : StorageState) :
    (isValidUUID id = false → loadUserData id store = .error .ValidationError)
      ∧ (isValidUUID id = true → loadUserData id emptyStorage = .ok none) := by
  constructor
  · intro h
    unfold loadUserData
    rw [h]
    rfl
  · intro h
    unfold loadUserData
    rw [h]
    rfl

/-- Witness for C8 at the concrete inputs from the spec. -/
theorem claim_store_uuid_validation_witness :
    loadUserData "not-a-uuid" emptyStorage = .error .ValidationError
      ∧ loadUserData "550e8400-e29b-41d4-a716-446655440000" emptyStorage
          = .ok none :=
  ⟨(claim_store_uuid_validation "not-a-uuid" emptyStorage).1 (by decide),
    (claim_store_uuid_validation "550e8400-e29b-41d4-a716-446655440000"
      emptyStorage).2 (by decide)⟩

/-- C9 counterexample: a successful bootstrap-admin login on an empty
store.  The record persisted in storage carries only the default
permission list [read:dashboard] - not the elevated set, because the
elevated permissions are assigned to the in-memory object only after
createUser has already serialized the record - while the claim asserts
the persisted state carries the elevated set. -/
theorem claim_admin_login_counterexample :
    (login (some "S3") "S3" [0] "550e8400-e29b-41d4-a716-446655440000" "t0"
        emptyStorage).success = true
      ∧ (login (some "S3") "S3" [0] "550e8400-e29b-41d4-a716-446655440000" "t0"
          emptyStorage).store.users
            (getUserKey "550e8400-e29b-41d4-a716-446655440000")
          = some ⟨"550e8400-e29b-41d4-a716-446655440000", hashToken "S3" [0], [],
              "t0", "t0", "admin", ["read:dashboard"]⟩
      ∧ (["read:dashboard"] : List String) ≠ adminPermissions := by
  refine ⟨?_, ?_, by decide⟩
  · decide
  · decide

/-- Full characterization of a bootstrap-admin login: session view with
elevated permissions, persisted record with default permissions only. -/
theorem login_bootstrap_spec (cfg : Option String) (T : String) (salt : Bytes)
    (uuid now : String) (store : StorageState)
    (hfind : findUserByTokenHash (hashToken T salt) store = none)
    (henv : envTruthy cfg = true)
    (hver : verifyToken cfg T (cfg.getD "") = true)
    (huuid : isValidUUID uuid = true) :
    login cfg T salt uuid now store
      = ⟨true,
          some ⟨uuid, hashToken T salt, [], now, now, "admin", adminPermissions⟩,
          ⟨if uuid ∈ store.index then store.index else store.index ++ [uuid],
            fun k => if k = getUserKey uuid then
                some ⟨uuid, hashToken T salt, [], now, now, "admin",
                  ["read:dashboard"]⟩
              else store.users k⟩⟩ := by
  unfold login createUser saveUserData
  simp only [hfind, henv, hver, huuid, Bool.true_and, if_true, Bool.not_true,
    Bool.false_eq_true, if_false]

/-- C9 (amended): a raw token that misses the hash lookup but passes the
bootstrap-admin verification creates an admin record and returns its
session view; the session view carries the elevated permission set, while
the state persisted by createUser keeps role admin with the default
permissions [read:dashboard] only. -/
theorem claim_admin_login (cfg : Option String) (T : String) (salt : Bytes)
    (uuid now : String) (store : StorageState)
    (hfind : findUserByTokenHash (hashToken T salt) store = none)
    (henv : envTruthy cfg = true)
    (hver : verifyToken cfg T (cfg.getD "") = true)
    (huuid : isValidUUID uuid = true) :
    (login cfg T salt uuid now store).success = true
      ∧ (login cfg T salt uuid now store).sessionUser
          = some ⟨uuid, hashToken T salt, [], now, now, "admin", adminPermissions⟩
      ∧ (login cfg T salt uuid now store).store.users (getUserKey uuid)
          = some ⟨uuid, hashToken T salt, [], now, now, "admin",
              ["read:dashboard"]⟩ := by
  rw [login_bootstrap_spec cfg T salt uuid now store hfind henv hver huuid]
  exact ⟨rfl, rfl, by simp⟩

/-- Witness for C9 (amended) at concrete inputs. -/
theorem claim_admin_login_witness :
    (login (some "S4") "S4" [1] "650e8400-e29b-41d4-a716-446655440000" "t1"
        emptyStorage).success = true
      ∧ (login (some "S4") "S4" [1] "650e8400-e29b-41d4-a716-446655440000" "t1"
          emptyStorage).sessionUser
          = some ⟨"650e8400-e29b-41d4-a716-446655440000", hashToken "S4" [1], [],
              "t1", "t1", "admin", adminPermissions⟩
      ∧ (login (some "S4") "S4" [1] "650e8400-e29b-41d4-a716-446655440000" "t1"
          emptyStorage).store.users
            (getUserKey "650e8400-e29b-41d4-a716-446655440000")
          = some ⟨"650e8400-e29b-41d4-a716-446655440000", hashToken "S4" [1], [],
              "t1", "t1", "admin", ["read:dashboard"]⟩ :=
  claim_admin_login (some "S4") "S4" [1] "650e8400-e29b-41d4-a716-446655440000"
    "t1" emptyStorage (by decide) (by decide) (by decide) (by decide)

theorem findUserAux_append (users : String → Option UserData) (h : String)
    (l1 l2 : List String) :
    findUserAux users h (l1 ++ l2)
      = match findUserAux users h l1 with
        | some u => some u
        | none => findUserAux users h l2 := by
  induction l1 with
  | nil => rfl
  | cons u rest ih =>
      simp only [List.cons_append, findUserAux]
      cases husers : users (getUserKey u) with
      | none => exact ih
      | some user =>
          by_cases ht : user.tokenHash = h
          · simp only [if_pos ht]
          · simp only [if_neg ht]
            exact ih

theorem findUserAux_update_of_not_mem (users : String → Option UserData)
    (h key : String) (v : UserData) (l : List String)
    (hnot : ∀ u ∈ l, getUserKey u ≠ key) :
    findUserAux (fun k => if k = key then some v else users k) h l
      = findUserAux users h l := by
  induction l with
  | nil => rfl
  | cons u rest ih =>
      have hk : getUserKey u ≠ key := hnot u (List.mem_cons_self ..)
      simp only [findUserAux, if_neg hk]
      cases users (getUserKey u) with
      | none => exact ih fun x hx => hnot x (List.mem_cons_of_mem _ hx)
      | some user =>
          by_cases ht : user.tokenHash = h
          · simp only [if_pos ht]
          · simp only [if_neg ht]
            exact ih fun x hx => hnot x (List.mem_cons_of_mem _ hx)

/-- Distinct salts yield distinct encoded hashes of the same token. -/
theorem hashToken_inj_salt (T : String) (s1 s2 : Bytes)
    (h1 : ∀ b ∈ s1, b < 256) (h2 : ∀ b ∈ s2, b < 256)
    (h : hashToken T s1 = hashToken T s2) : s1 = s2 := by
  have hsplit := congrArg (fun s => splitOn '$' (String.data s)) h
  simp only [splitOn_hashToken T s1 h1, splitOn_hashToken T s2 h2,
    List.cons.injEq, and_true, true_and] at hsplit
  exact hexOfBytes_injOn s1 s2 h1 h2 hsplit.1

theorem envTruthy_of_ne (S : String) (hS : S ≠ "") : envTruthy (some S) = true := by
  have hemp : S.isEmpty = false := by
    cases hx : S.isEmpty
    · rfl
    · exact absurd ((String.isEmpty_iff S).mp hx) hS
  simp only [envTruthy, hemp]
  rfl

/-- The dual-path admin verification accepts the configured secret
itself. -/
theorem verifyToken_self_admin (S : String) (hS : S ≠ "") :
    verifyToken (some S) S ((some S).getD "") = true := by
  unfold verifyToken
  rw [if_pos]
  rw [Option.getD_some, envTruthy_of_ne S hS, constantTimeEqual_self]
  rfl

/-- C10: two consecutive successful logins with the same bootstrap-admin
secret mint two distinct admin records: hashToken salts freshly each call,
so the second hash lookup cannot find the record the first login created,
and the bootstrap path creates a second record with its own uuid and
tokenHash. -/
theorem claim_bootstrap_relogin (S : String) (salt1 salt2 : Bytes)
    (uuid1 uuid2 now1 now2 : String) (store : StorageState)
    (hS : S ≠ "")
    (hsalt1 : ∀ b ∈ salt1, b < 256) (hsalt2 : ∀ b ∈ salt2, b < 256)
    (hsne : salt1 ≠ salt2)
    (hfind1 : findUserByTokenHash (hashToken S salt1) store = none)
    (hfind2 : findUserByTokenHash (hashToken S salt2) store = none)
    (huuid1 : isValidUUID uuid1 = true) (huuid2 : isValidUUID uuid2 = true)
    (hu12 : uuid1 ≠ uuid2)
    (hnew1 : uuid1 ∉ store.index) :
    (login (some S) S salt1 uuid1 now1 store).success = true
      ∧ (login (some S) S salt2 uuid2 now2
          (login (some S) S salt1 uuid1 now1 store).store).success = true
      ∧ hashToken S salt1 ≠ hashToken S salt2
      ∧ (login (some S) S salt2 uuid2 now2
          (login (some S) S salt1 uuid1 now1 store).store).store.users
            (getUserKey uuid1)
          = some ⟨uuid1, hashToken S salt1, [], now1, now1, "admin",
              ["read:dashboard"]⟩
      ∧ (login (some S) S salt2 uuid2 now2
          (login (some S) S salt1 uuid1 now1 store).store).store.users
            (getUserKey uuid2)
          = some ⟨uuid2, hashToken S salt2, [], now2, now2, "admin",
              ["read:dashboard"]⟩ := by
  have henv := envTruthy_of_ne S hS
  have hver := verifyToken_self_admin S hS
  have hhne : hashToken S salt1 ≠ hashToken S salt2 :=
    fun h => hsne (hashToken_inj_salt S salt1 salt2 hsalt1 hsalt2 h)
  have h1 := login_bootstrap_spec (some S) S salt1 uuid1 now1 store hfind1 henv
    hver huuid1
  rw [if_neg hnew1] at h1
  have hnot : ∀ u ∈ store.index, getUserKey u ≠ getUserKey uuid1 := by
    intro u hu heq
    exact hnew1 (getUserKey_inj u uuid1 heq ▸ hu)
  have hfind2' :
      findUserByTokenHash (hashToken S salt2)
        ⟨store.index ++ [uuid1],
          fun k => if k = getUserKey uuid1 then
              some ⟨uuid1, hashToken S salt1, [], now1, now1, "admin",
                ["read:dashboard"]⟩
            else store.users k⟩ = none := by
    unfold findUserByTokenHash
    rw [findUserAux_append]
    rw [findUserAux_update_of_not_mem _ _ _ _ _ hnot]
    have hbase : findUserAux store.users (hashToken S salt2) store.index = none :=
      hfind2
    rw [hbase]
    simp [findUserAux, hhne]
  have h2 := login_bootstrap_spec (some S) S salt2 uuid2 now2
    ⟨store.index ++ [uuid1],
      fun k => if k = getUserKey uuid1 then
          some ⟨uuid1, hashToken S salt1, [], now1, now1, "admin",
            ["read:dashboard"]⟩
        else store.users k⟩ hfind2' henv hver huuid2
  rw [h1, h2]
  have hkne : getUserKey uuid1 ≠ getUserKey uuid2 :=
    fun h => hu12 (getUserKey_inj _ _ h)
  refine ⟨rfl, rfl, hhne, ?_, ?_⟩
  · simp [hkne]
  · simp

/-- Witness for C10 at concrete inputs. -/
theorem claim_bootstrap_relogin_witness :
    (login (some "S5") "S5" [1] "150e8400-e29b-41d4-a716-446655440000" "t1"
        emptyStorage).success = true
      ∧ (login (some "S5") "S5" [2] "250e8400-e29b-41d4-a716-446655440000" "t2"
          (login (some "S5") "S5" [1] "150e8400-e29b-41d4-a716-446655440000" "t1"
            emptyStorage).store).success = true
      ∧ hashToken "S5" [1] ≠ hashToken "S5" [2]
      ∧ (login (some "S5") "S5" [2] "250e8400-e29b-41d4-a716-446655440000" "t2"
          (login (some "S5") "S5" [1] "150e8400-e29b-41d4-a716-446655440000" "t1"
            emptyStorage).store).store.users
            (getUserKey "150e8400-e29b-41d4-a716-446655440000")
          = some ⟨"150e8400-e29b-41d4-a716-446655440000", hashToken "S5" [1], [],
              "t1", "t1", "admin", ["read:dashboard"]⟩
      ∧ (login (some "S5") "S5" [2] "250e8400-e29b-41d4-a716-446655440000" "t2"
          (login (some "S5") "S5" [1] "150e8400-e29b-41d4-a716-446655440000" "t1"
            emptyStorage).store).store.users
            (getUserKey "250e8400-e29b-41d4-a716-446655440000")
          = some ⟨"250e8400-e29b-41d4-a716-446655440000", hashToken "S5" [2], [],
              "t2", "t2", "admin", ["read:dashboard"]⟩ :=
  claim_bootstrap_relogin "S5" [1] [2] "150e8400-e29b-41d4-a716-446655440000"
    "250e8400-e29b-41d4-a716-446655440000" "t1" "t2" emptyStorage (by decide)
    (by decide) (by decide) (by decide) (by decide) (by decide) (by decide)
    (by decide) (by decide) (by decide)

end ApiTokenMonitor

